import Mathlib

/-!
Verification of the Connect Four engine (`game.py`, `ai.py`).

Shallow embedding conventions:
* the numpy `(6, 7)` board of ints is a function `Fin 6 → Fin 7 → ℕ`
  (row 0 is the top row, row 5 the bottom row, as in the source);
* Python ints are `ℕ`/`ℤ`/`ℚ`; Python floats appearing in the AI's scores
  are modelled by the type `Score` below (`+inf`, `-inf`, finite), with
  the finite part an exact rational;
* loops are `List.range`/`List.findSome?`/explicit structural recursion
  in the source's iteration order; early `return` becomes `findSome?`;
* fallible lookups (`get_next_open_row` returning `None`) are `Option`.
-/

set_option maxRecDepth 100000

abbrev Board : Type := Fin 6 → Fin 7 → ℕ

/-- Bounds-checked cell read with natural-number indices.  Every access the
source performs is in bounds, so the default value 0 is never consulted on
the source's paths. -/
def cellN (b : Board) (r c : ℕ) : ℕ :=
  if h : r < 6 ∧ c < 7 then b ⟨r, h.1⟩ ⟨c, h.2⟩ else 0

/-- Functional update of a single cell (`board[row][col] = v` performed on a
fresh copy; numpy `.copy()` is value copying in this embedding). -/
def set_cell (b : Board) (row col v : ℕ) : Board :=
  fun r c => if r.val = row ∧ c.val = col then v else b r c

/-- `np.zeros((6, 7))`. -/
def emptyBoard : Board := fun _ _ => 0

/-- The mutable state of `ConnectFour`: the grid plus `current_player`
(`game.py` lines 9-16). -/
structure GameState where
  board : Board
  current_player : ℕ
deriving DecidableEq

/-- `ConnectFour.__init__`: empty board, player 1 to move. -/
def initState : GameState := ⟨emptyBoard, 1⟩

/-- `ConnectFour.is_valid_move` (game.py 18-20): the column index is in range
(`0 <= col < 7`; the lower bound is automatic for `ℕ`) and the top cell of
the column is empty. -/
def is_valid_move (s : GameState) (col : ℕ) : Bool :=
  decide (col < 7) && (cellN s.board 0 col == 0)

/-- The bottom-up scan `for row in range(ROWS-1, -1, -1): if board[row][col] == 0:
return row` shared by `ConnectFour.get_next_open_row`, `ConnectFour.make_move`
and `ConnectFourAI.get_next_row`.  `scanOpen b col r` tries rows `r, r-1, ..., 0`. -/
def scanOpen (b : Board) (col : ℕ) : ℕ → Option ℕ
  | 0 => if cellN b 0 col = 0 then some 0 else none
  | r + 1 => if cellN b (r + 1) col = 0 then some (r + 1) else scanOpen b col r

/-- `ConnectFour.get_next_open_row` (game.py 23-32), reading the live grid. -/
def get_next_open_row (s : GameState) (col : ℕ) : Option ℕ :=
  scanOpen s.board col 5

/-- `ConnectFourAI.get_next_row` (ai.py 194-199): same bottom-up scan, but on
an explicit board argument. -/
def get_next_row (b : Board) (col : ℕ) : Option ℕ :=
  scanOpen b col 5

/-- `ConnectFour.make_move` (game.py 34-59).  Returns the Python boolean
result together with the successor state (the state is unchanged on a
rejected move). -/
def make_move (s : GameState) (col p : ℕ) : Bool × GameState :=
  if p ≠ s.current_player then (false, s)
  else if !(is_valid_move s col) then (false, s)
  else
    match scanOpen s.board col 5 with
    | some row =>
        (true, ⟨set_cell s.board row col p,
                if s.current_player = 1 then 2 else 1⟩)
    | none => (false, s)

/-- Horizontal pass of `ConnectFour.check_winner` (game.py 73-78): rows 0-5,
window starts 0-3, first window whose four cells are equal and nonzero. -/
def cw_horizontal (b : Board) : Option ℕ :=
  (List.range 6).findSome? fun row =>
    (List.range 4).findSome? fun col =>
      let v := cellN b row col
      if v ≠ 0 ∧ cellN b row (col+1) = v ∧ cellN b row (col+2) = v ∧
          cellN b row (col+3) = v then some v else none

/-- Vertical pass of `ConnectFour.check_winner` (game.py 81-86). -/
def cw_vertical (b : Board) : Option ℕ :=
  (List.range 3).findSome? fun row =>
    (List.range 7).findSome? fun col =>
      let v := cellN b row col
      if v ≠ 0 ∧ cellN b (row+1) col = v ∧ cellN b (row+2) col = v ∧
          cellN b (row+3) col = v then some v else none

/-- Positive-slope diagonal pass of `ConnectFour.check_winner`
(game.py 89-94): windows `(row+i, col+i)` with `row` in 0-2, `col` in 0-3. -/
def cw_posdiag (b : Board) : Option ℕ :=
  (List.range 3).findSome? fun row =>
    (List.range 4).findSome? fun col =>
      let v := cellN b row col
      if v ≠ 0 ∧ cellN b (row+1) (col+1) = v ∧ cellN b (row+2) (col+2) = v ∧
          cellN b (row+3) (col+3) = v then some v else none

/-- Negative-slope diagonal pass of `ConnectFour.check_winner`
(game.py 97-102): windows `(row-i, col+i)` with `row` in 3-5, `col` in 0-3. -/
def cw_negdiag (b : Board) : Option ℕ :=
  (List.range' 3 3).findSome? fun row =>
    (List.range 4).findSome? fun col =>
      let v := cellN b row col
      if v ≠ 0 ∧ cellN b (row-1) (col+1) = v ∧ cellN b (row-2) (col+2) = v ∧
          cellN b (row-3) (col+3) = v then some v else none

/-- `ConnectFour.check_winner` (game.py 62-104): the four passes in source
order, first match wins. -/
def check_winner (b : Board) : Option ℕ :=
  match cw_horizontal b with
  | some v => some v
  | none =>
    match cw_vertical b with
    | some v => some v
    | none =>
      match cw_posdiag b with
      | some v => some v
      | none => cw_negdiag b

/-- `ConnectFour.is_board_full` (game.py 106-111). -/
def is_board_full (b : Board) : Bool :=
  !((List.range 7).any fun col => cellN b 0 col == 0)

/-- `ConnectFour.reset` (game.py 116-118): clear the grid, set
`current_player` to the given starting player. -/
def resetState (_s : GameState) (starting_player : ℕ) : GameState :=
  ⟨emptyBoard, starting_player⟩

/-- The no-floating-pieces invariant (spec section 3): directly below every
occupied cell sits an occupied cell, so the occupied cells of a column form a
contiguous run ending at the bottom row (row 5). -/
def noFloating (b : Board) : Prop :=
  ∀ r < 5, ∀ c < 7, cellN b r c ≠ 0 → cellN b (r+1) c ≠ 0

instance (b : Board) : Decidable (noFloating b) := by
  unfold noFloating; infer_instance

/-- Transitive form of `noFloating`: every cell below an occupied cell is
occupied. -/
theorem noFloating_below {b : Board} (h : noFloating b) :
    ∀ r r2 c, r ≤ r2 → r2 < 6 → c < 7 → cellN b r c ≠ 0 → cellN b r2 c ≠ 0 := by
  intro r r2 c hle h6 h7 hocc
  induction r2 with
  | zero =>
    have hr0 : r = 0 := by omega
    simpa [hr0] using hocc
  | succ n ih =>
    rcases Nat.lt_or_ge r (n+1) with hlt | hge
    · exact h n (by omega) c h7 (ih (by omega) (by omega))
    · have : r = n + 1 := by omega
      simpa [this] using hocc

/-- Above an empty cell, every cell of the same column is empty
(contrapositive chain of `noFloating`). -/
theorem noFloating_above {b : Board} (h : noFloating b) :
    ∀ r r2 c, r ≤ r2 → r2 < 6 → c < 7 → cellN b r2 c = 0 → cellN b r c = 0 := by
  intro r r2 c hle h6 h7 hempty
  by_contra hocc
  exact noFloating_below h r r2 c hle h6 h7 hocc hempty

/-- Scores in the AI are Python floats: the two infinities plus finite
values.  Finite values are modelled as exact rationals (see
`score_position`: the only non-integer factor is the literal `1.2`). -/
inductive Score where
  | negInf : Score
  | finite : ℚ → Score
  | posInf : Score
deriving DecidableEq

/-- Python `float` strict comparison `a < b` restricted to the values that
occur (no NaN ever arises in this program). -/
def Score.lt : Score → Score → Bool
  | .negInf, .negInf => false
  | .negInf, _ => true
  | .finite _, .negInf => false
  | .finite q, .finite q2 => decide (q < q2)
  | .finite _, .posInf => true
  | .posInf, _ => false

/-- Python `float` comparison `a <= b`. -/
def Score.le : Score → Score → Bool
  | .negInf, _ => true
  | .finite _, .negInf => false
  | .finite q, .finite q2 => decide (q ≤ q2)
  | .finite _, .posInf => true
  | .posInf, .posInf => true
  | .posInf, _ => false

/-- Python `max(a, b)`: returns the first argument on ties. -/
def pymax (a b : Score) : Score := if Score.lt a b then b else a

/-- Python `min(a, b)`: returns the first argument on ties. -/
def pymin (a b : Score) : Score := if Score.lt b a then b else a

/-- The source's `float('inf') - 1` (ai.py 268).  In IEEE-754 (hence in
Python) subtracting 1 from infinity yields infinity, so this value IS
`+inf`, not a number strictly below it. -/
def inf_minus_one : Score := Score.posInf

def Score.isFinite : Score → Bool
  | .finite _ => true
  | _ => false

theorem Score.isFinite_ne_posInf {x : Score} (h : x.isFinite = true) :
    x ≠ Score.posInf := by
  cases x <;> simp_all [Score.isFinite]

/-- The AI's two configured identities (`ConnectFourAI.__init__` and
`set_player_number`, ai.py 9-20). -/
structure AIConfig where
  AI : ℕ
  PLAYER : ℕ
deriving DecidableEq

/-- The constructor's default configuration: human 1, AI 2. -/
def defaultCfg : AIConfig := ⟨2, 1⟩

/-- The expression `self.PLAYER if player == self.AI else self.AI`
(ai.py 27 and 59). -/
def opponent_of (cfg : AIConfig) (p : ℕ) : ℕ :=
  if p = cfg.AI then cfg.PLAYER else cfg.AI

/-- `ConnectFourAI._is_accessible_in_window` (ai.py 50-52): every position
after `pos` inside the window is nonempty.  (The `i == pos` disjunct of the
source is kept although it never fires for `i > pos`.) -/
def is_accessible_in_window (w : List ℕ) (pos : ℕ) : Bool :=
  (List.range' (pos+1) (w.length - (pos+1))).all fun i =>
    (i == pos) || !(w.getD i 0 == 0)

/-- `ConnectFourAI.evaluate_window` (ai.py 22-48): the `if/elif` chain with
the doubling of accessible scores folded in (`score *= 2`). -/
def evaluate_window (cfg : AIConfig) (w : List ℕ) (p : ℕ) : ℤ :=
  let opp := opponent_of cfg p
  if w.count p = 4 then 1000000000
  else if w.count p = 3 ∧ w.count 0 = 1 then
    if is_accessible_in_window w (w.indexOf 0) then 100000000 else 50000000
  else if w.count opp = 3 ∧ w.count 0 = 1 then -900000000
  else if w.count p = 2 ∧ w.count 0 = 2 then
    if (List.range w.length).all
        (fun i => !(w.getD i 0 == 0) || is_accessible_in_window w i) then
      10000
    else 5000
  else 0

/-- `ConnectFourAI._is_accessible` (ai.py 190-192): a grid position is
playable when every cell strictly below it in its column is occupied. -/
def is_accessible (b : Board) (row col : ℕ) : Bool :=
  (List.range' (row+1) (6 - (row+1))).all fun r => !(cellN b r col == 0)

/-- `ConnectFourAI.is_winning_move` (ai.py 212-238).  Note the diagonal
loops run `i` from `-3` to `0` with `r = row - i` (positive slope) resp.
`r = row + i` (negative slope); we substitute `t = -i ∈ {0,1,2,3}` (the
`any` is order-insensitive). -/
def is_winning_move (b : Board) (row col p : ℕ) : Bool :=
  -- horizontal: for c in range(max(0, col-3), min(col+1, COLS-3))
  ((List.range' (col-3) (min (col+1) 4 - (col-3))).any fun c =>
    (List.range 4).all fun i => cellN b row (c+i) == p) ||
  -- vertical: only if row <= ROWS-4
  (decide (row ≤ 2) && (List.range 4).all fun i => cellN b (row+i) col == p) ||
  -- positive diagonal: r, c = row - i, col - i
  ((List.range 4).any fun t =>
    decide (row + t ≤ 2) && decide (col + t ≤ 3) &&
    ((List.range 4).all fun j => cellN b (row+t+j) (col+t+j) == p)) ||
  -- negative diagonal: r, c = row + i, col - i
  ((List.range 4).any fun t =>
    decide (3 ≤ row - t ∧ row - t < 6) && decide (col + t ≤ 3) &&
    ((List.range 4).all fun j => cellN b (row-t-j) (col+t+j) == p))

/-- `[int(i) for i in list(board[:, col])]`: a column read top to bottom. -/
def col_array (b : Board) (c : ℕ) : List ℕ :=
  (List.range 6).map fun r => cellN b r c

/-- `list(board[row, col:col+4])`: a horizontal 4-window. -/
def window_row (b : Board) (r c : ℕ) : List ℕ :=
  (List.range 4).map fun i => cellN b r (c+i)

/-- `list(board[row, col:col+5])`: the extended 5-cell horizontal window. -/
def extended_window (b : Board) (r c : ℕ) : List ℕ :=
  (List.range 5).map fun i => cellN b r (c+i)

/-- `col_array[row:row+4]`: a vertical 4-window, top cell first. -/
def window_col (b : Board) (r c : ℕ) : List ℕ :=
  (List.range 4).map fun i => cellN b (r+i) c

/-- The immediate-threat scan opening `score_position` (ai.py 62-68):
for every column where the opponent could drop, subtract 1,000,000,000 if
that drop would win for the opponent. -/
def threat_scan (cfg : AIConfig) (b : Board) (p : ℕ) : ℤ :=
  ((List.range 7).map fun col =>
    match get_next_row b col with
    | none => 0
    | some row =>
      if is_winning_move (set_cell b row col (opponent_of cfg p)) row col
          (opponent_of cfg p) then (-1000000000 : ℤ) else 0).sum

/-- The centre/adjacent-column block of `score_position` (ai.py 70-81):
`+8000` per centre piece, then for each of columns 2 and 4 `+5000` per piece
plus `+3000` whenever that column and the centre are both occupied by `p`. -/
def center_adjacent_score (b : Board) (p : ℕ) : ℤ :=
  List.foldl
    (fun acc c =>
      acc + 5000 * ((col_array b c).count p : ℤ) +
        (if 0 < (col_array b c).count p ∧ 0 < (col_array b 3).count p
         then 3000 else 0))
    (8000 * ((col_array b 3).count p : ℤ)) [2, 4]

/-- The horizontal-window pass of `score_position` (ai.py 84-94), including
the trapped-opponent bonus for 5-cell windows when `col < COLS-4`. -/
def horizontal_score (cfg : AIConfig) (b : Board) (p : ℕ) : ℤ :=
  ((List.range 6).map fun row =>
    ((List.range 4).map fun col =>
      evaluate_window cfg (window_row b row col) p +
        (if col < 3 then
          (if 2 ≤ (extended_window b row col).count (opponent_of cfg p)
           then 3000 else 0)
         else 0)).sum).sum

/-- The vertical-window pass of `score_position` (ai.py 97-101): each window
score is multiplied by the float literal `1.2`, modelled as the exact
rational `6/5` (the IEEE double written `1.2` differs from `6/5` by less
than `2^-52`; no claim in this development depends on that difference). -/
def vertical_score (cfg : AIConfig) (b : Board) (p : ℕ) : ℚ :=
  ((List.range 7).map fun col =>
    ((List.range 3).map fun row =>
      (evaluate_window cfg (window_col b row col) p : ℚ) * (6/5 : ℚ)).sum).sum

/-- `ConnectFourAI.score_position` (ai.py 54-103): the four additive blocks
in source order. -/
def score_position (cfg : AIConfig) (b : Board) (p : ℕ) : ℚ :=
  ((threat_scan cfg b p + center_adjacent_score b p +
    horizontal_score cfg b p : ℤ) : ℚ) + vertical_score cfg b p

/-- `valid_locations` (ai.py 248-249): the legal columns of the LIVE game
(`self.game.is_valid_move`), not of the board argument. -/
def valid_locations (s : GameState) : List ℕ :=
  (List.range 7).filter fun col => is_valid_move s col

/-- The immediate-win check opening `minimax` (ai.py 252-259): first legal
column (legality and open row read from the live game) whose simulated AI
drop on the board argument is a winning move. -/
def immediate_win_col (cfg : AIConfig) (s : GameState) (b : Board) : Option ℕ :=
  (valid_locations s).findSome? fun col =>
    match get_next_open_row s col with
    | none => none
    | some row =>
      if is_winning_move (set_cell b row col cfg.AI) row col cfg.AI
      then some col else none

/-- The immediate-block check of `minimax` (ai.py 262-268), same shape with
the human's piece. -/
def immediate_block_col (cfg : AIConfig) (s : GameState) (b : Board) : Option ℕ :=
  (valid_locations s).findSome? fun col =>
    match get_next_open_row s col with
    | none => none
    | some row =>
      if is_winning_move (set_cell b row col cfg.PLAYER) row col cfg.PLAYER
      then some col else none

/-- The two tactical short-circuits at the top of every `minimax` node:
a win returns `+inf`, a block returns `float('inf') - 1` (which is `+inf`,
see `inf_minus_one`). -/
def minimax_entry (cfg : AIConfig) (s : GameState) (b : Board) :
    Option (Option ℕ × Score) :=
  match immediate_win_col cfg s b with
  | some col => some (some col, Score.posInf)
  | none =>
    match immediate_block_col cfg s b with
    | some col => some (some col, inf_minus_one)
    | none => none

/-- The terminal test of `minimax` (ai.py 271): computed from the LIVE grid
`self.game`, not from the board argument. -/
def is_terminal_live (s : GameState) : Bool :=
  (check_winner s.board).isSome || is_board_full s.board

/-- The leaf block of `minimax` (ai.py 272-282): on a live-terminal position
return `±inf`/0 according to the live winner; otherwise (depth exhausted)
the heuristic of the board argument for the AI. -/
def leaf_value (cfg : AIConfig) (s : GameState) (b : Board) : Option ℕ × Score :=
  if is_terminal_live s then
    match check_winner s.board with
    | some w =>
      if w = cfg.AI then (none, Score.posInf)
      else if w = cfg.PLAYER then (none, Score.negInf)
      else (none, Score.finite 0)
    | none => (none, Score.finite 0)
  else (none, Score.finite (score_position cfg b cfg.AI))

/-- The maximizing loop of `minimax` (ai.py 285-299).  `next` is the one-ply
-shallower minimizing search; the live game state is threaded through every
recursive call (arguments: remaining columns, threaded state, board
argument, best column, best value, alpha, beta).  The `none` open-row case
cannot occur for columns drawn from `valid_locations` (their top cell is
empty); Python would raise there, the embedding skips. -/
def max_loop (cfg : AIConfig)
    (next : GameState → Board → Score → Score → ((Option ℕ × Score) × GameState)) :
    List ℕ → GameState → Board → ℕ → Score → Score → Score →
    ((ℕ × Score) × GameState)
  | [], st, _, column, value, _, _ => ((column, value), st)
  | col :: rest, st, b, column, value, α, β =>
    match get_next_open_row st col with
    | none => max_loop cfg next rest st b column value α β
    | some row =>
      let r := next st (set_cell b row col cfg.AI) α β
      let ns := r.1.2
      let st1 := r.2
      let column1 := if Score.lt value ns then col else column
      let value1 := if Score.lt value ns then ns else value
      let α1 := pymax α value1
      if Score.le β α1 then ((column1, value1), st1)
      else max_loop cfg next rest st1 b column1 value1 α1 β

/-- The minimizing loop of `minimax` (ai.py 302-316), symmetric to
`max_loop` with the human's piece and beta updates. -/
def min_loop (cfg : AIConfig)
    (next : GameState → Board → Score → Score → ((Option ℕ × Score) × GameState)) :
    List ℕ → GameState → Board → ℕ → Score → Score → Score →
    ((ℕ × Score) × GameState)
  | [], st, _, column, value, _, _ => ((column, value), st)
  | col :: rest, st, b, column, value, α, β =>
    match get_next_open_row st col with
    | none => min_loop cfg next rest st b column value α β
    | some row =>
      let r := next st (set_cell b row col cfg.PLAYER) α β
      let ns := r.1.2
      let st1 := r.2
      let column1 := if Score.lt ns value then col else column
      let value1 := if Score.lt ns value then ns else value
      let β1 := pymin β value1
      if Score.le β1 α then ((column1, value1), st1)
      else min_loop cfg next rest st1 b column1 value1 α β1

/-- `ConnectFourAI.minimax` (ai.py 240-316), with the live game state
threaded in and out (it is read, never written: all placements happen on
copies of the board argument).  Recursion is on the depth.  In the
`valid_locations = []` case of a non-terminal node Python would raise
`IndexError` on `valid_locations[0]`; that case is unreachable (an empty
`valid_locations` forces `is_board_full`, hence the terminal branch) and
the embedding returns the loop's initial value. -/
def minimaxAux (cfg : AIConfig) :
    ℕ → GameState → Board → Score → Score → Bool →
    ((Option ℕ × Score) × GameState)
  | 0, s, b, _, _, _ =>
    (match minimax_entry cfg s b with
     | some r => r
     | none => leaf_value cfg s b, s)
  | d+1, s, b, α, β, m =>
    match minimax_entry cfg s b with
    | some r => (r, s)
    | none =>
      if is_terminal_live s then (leaf_value cfg s b, s)
      else
        match valid_locations s with
        | [] => ((none, if m then Score.negInf else Score.posInf), s)
        | c0 :: _ =>
          if m then
            let r := max_loop cfg
              (fun st bb a2 b2 => minimaxAux cfg d st bb a2 b2 false)
              (valid_locations s) s b c0 Score.negInf α β
            ((some r.1.1, r.1.2), r.2)
          else
            let r := min_loop cfg
              (fun st bb a2 b2 => minimaxAux cfg d st bb a2 b2 true)
              (valid_locations s) s b c0 Score.posInf α β
            ((some r.1.1, r.1.2), r.2)

/-- The `(column, score)` result of `ConnectFourAI.minimax`. -/
def minimax (cfg : AIConfig) (s : GameState) (b : Board) (depth : ℕ)
    (α β : Score) (m : Bool) : Option ℕ × Score :=
  (minimaxAux cfg depth s b α β m).1

/-- Phase 1 of `get_best_move` (ai.py 323-329): first column (over ALL of
`range(7)`, gated only by a nonempty open row on the live grid) whose AI
drop wins immediately. -/
def phase_win (cfg : AIConfig) (s : GameState) : Option ℕ :=
  (List.range 7).findSome? fun col =>
    match get_next_row s.board col with
    | none => none
    | some row =>
      if is_winning_move (set_cell s.board row col cfg.AI) row col cfg.AI
      then some col else none

/-- Phase 2 of `get_best_move` (ai.py 332-338): first column blocking an
immediate human win. -/
def phase_block (cfg : AIConfig) (s : GameState) : Option ℕ :=
  (List.range 7).findSome? fun col =>
    match get_next_row s.board col with
    | none => none
    | some row =>
      if is_winning_move (set_cell s.board row col cfg.PLAYER) row col cfg.PLAYER
      then some col else none

/-- The inner loop of phase 3 of `get_best_move` (ai.py 347-354): how many
columns of the hypothetical board `bc` admit an immediately winning AI
drop. -/
def fork_win_count (cfg : AIConfig) (bc : Board) : ℕ :=
  (List.range 7).countP fun nc =>
    match get_next_row bc nc with
    | none => false
    | some nr => is_winning_move (set_cell bc nr nc cfg.AI) nr nc cfg.AI

/-- Phase 3 of `get_best_move` (ai.py 341-356): first column whose AI drop
leaves at least two immediate AI winning replies (a fork). -/
def phase_fork (cfg : AIConfig) (s : GameState) : Option ℕ :=
  (List.range 7).findSome? fun col =>
    match get_next_row s.board col with
    | none => none
    | some row =>
      if 2 ≤ fork_win_count cfg (set_cell s.board row col cfg.AI) then
        some col
      else none

/-- `ConnectFourAI.get_best_move` (ai.py 318-361) with the live game state
threaded through (the phases only read it; the minimax fallback runs at
`MAX_DEPTH = 6` with `alpha = -inf`, `beta = +inf`, maximizing). -/
def get_best_move_st (cfg : AIConfig) (s : GameState) : Option ℕ × GameState :=
  match phase_win cfg s with
  | some c => (some c, s)
  | none =>
    match phase_block cfg s with
    | some c => (some c, s)
    | none =>
      match phase_fork cfg s with
      | some c => (some c, s)
      | none =>
        let r := minimaxAux cfg 6 s s.board Score.negInf Score.posInf true
        (r.1.1, r.2)

/-- The column returned by `ConnectFourAI.get_best_move`. -/
def get_best_move (cfg : AIConfig) (s : GameState) : Option ℕ :=
  (get_best_move_st cfg s).1

/-- One call into the `ConnectFour` state: the mutating entry points
(`make_move`, `reset`) and the read-only queries, which contain no
assignment to `self.board` or `self.current_player` in the source and so
leave the state unchanged. -/
inductive Op where
  | move (col p : ℕ) : Op
  | reset (starting_player : ℕ) : Op
  | q_is_valid (col : ℕ) : Op
  | q_next_open (col : ℕ) : Op
  | q_winner : Op
  | q_full : Op
  | q_current : Op

/-- The state transition of one operation. -/
def stepOp (s : GameState) : Op → GameState
  | .move col p => (make_move s col p).2
  | .reset p => resetState s p
  | .q_is_valid _ => s
  | .q_next_open _ => s
  | .q_winner => s
  | .q_full => s
  | .q_current => s

/-- Run a sequence of operations from a starting state. -/
def runOps (s : GameState) (ops : List Op) : GameState :=
  ops.foldl stepOp s

/-! Concrete states used by the claim theorems below. -/

/-- A legal play sequence (alternating, every move accepted) after which
player 1 owns a completed vertical line in column 0 while six columns are
still open: `make_move` never checks for a finished game, so play can
continue past a win. -/
def movesC1 : List Op :=
  [.move 0 1, .move 4 2, .move 0 1, .move 6 2, .move 0 1, .move 4 2,
   .move 0 1, .move 0 2, .move 3 1, .move 0 2]

/-- The state reached by `movesC1`: column 0 reads `2,2,1,1,1,1` top to
bottom, plus scattered pieces; player 1 has already won. -/
def sC1 : GameState := runOps initState movesC1

/-- Live position with an immediate human threat (three 1s on the bottom
row) and no AI win anywhere. -/
def sC3 : GameState :=
  ⟨![![0,0,0,0,0,0,0],![0,0,0,0,0,0,0],![0,0,0,0,0,0,0],
     ![0,0,0,0,0,0,0],![0,0,0,0,0,0,0],![0,1,1,1,0,0,0]], 2⟩

/-- Live position offering both an immediate AI win (column 3 completes
`2,2,2` on the right) and an immediate human win to block (column 3 also
completes `1,1,1` on the left). -/
def sC3w : GameState :=
  ⟨![![0,0,0,0,0,0,0],![0,0,0,0,0,0,0],![0,0,0,0,0,0,0],
     ![0,0,0,0,0,0,0],![0,0,0,0,0,0,0],![1,1,1,0,2,2,2]], 2⟩

/-- A hypothetical board argument that is terminal with the AI (player 2)
as winner: four 2s across the top row. -/
def B2 : Board :=
  ![![2,2,2,2,0,0,0],![0,0,0,0,0,0,0],![0,0,0,0,0,0,0],
    ![0,0,0,0,0,0,0],![0,0,0,0,0,0,0],![0,0,0,0,0,0,0]]

/-- Live grid won by player 1 (bottom row). -/
def s10a : GameState :=
  ⟨![![0,0,0,0,0,0,0],![0,0,0,0,0,0,0],![0,0,0,0,0,0,0],
     ![0,0,0,0,0,0,0],![0,0,0,0,0,0,0],![1,1,1,1,0,0,0]], 2⟩

/-- Live grid won by player 2 (bottom row). -/
def s10b : GameState :=
  ⟨![![0,0,0,0,0,0,0],![0,0,0,0,0,0,0],![0,0,0,0,0,0,0],
     ![0,0,0,0,0,0,0],![0,0,0,0,0,0,0],![2,2,2,2,0,0,0]], 2⟩

/-- Board argument with three 2s on the bottom row, completable at column 0
or column 4. -/
def B10 : Board :=
  ![![0,0,0,0,0,0,0],![0,0,0,0,0,0,0],![0,0,0,0,0,0,0],
    ![0,0,0,0,0,0,0],![0,0,0,0,0,0,0],![0,2,2,2,0,0,0]]

/-- Live grid whose column 0 is full (no winner anywhere). -/
def s10d : GameState :=
  ⟨![![2,0,0,0,0,0,0],![1,0,0,0,0,0,0],![2,0,0,0,0,0,0],
     ![1,0,0,0,0,0,0],![2,0,0,0,0,0,0],![1,0,0,0,0,0,0]], 2⟩

/-- Gravity-respecting grid: the horizontal window at row 4, columns 0-3
reads `[2,2,2,0]`, and the empty cell `(4,3)` is NOT immediately playable
(the cell `(5,3)` below it is empty). -/
def B6 : Board :=
  ![![0,0,0,0,0,0,0],![0,0,0,0,0,0,0],![0,0,0,0,0,0,0],
    ![0,0,0,0,0,0,0],![2,2,2,0,0,0,0],![1,1,1,0,0,0,0]]

/-- Player 2 owns one piece in each of columns 2, 3 and 4 (bottom row). -/
def B7 : Board :=
  ![![0,0,0,0,0,0,0],![0,0,0,0,0,0,0],![0,0,0,0,0,0,0],
    ![0,0,0,0,0,0,0],![0,0,0,0,0,0,0],![0,0,2,2,2,0,0]]

/-- A legal play sequence after which BOTH players own a completed
horizontal line (player 1 across row 5, player 2 across row 4): the engine
accepts moves after a win, so such grids are reachable. -/
def movesC5 : List Op :=
  [.move 0 1, .move 0 2, .move 1 1, .move 1 2, .move 2 1, .move 2 2,
   .move 3 1, .move 3 2]

/-- The doubly-won state reached by `movesC5`. -/
def sC5 : GameState := runOps initState movesC5

/-- There is an occupied cell of `p` from which `is_winning_move` fires:
the rescan side of claim C5. -/
def existsWin (b : Board) (p : ℕ) : Prop :=
  p ≠ 0 ∧ ∃ r < 6, ∃ c < 7, cellN b r c = p ∧ is_winning_move b r c p = true

instance (b : Board) (p : ℕ) : Decidable (existsWin b p) := by
  unfold existsWin; infer_instance

/-- At most one piece value has a winning rescan cell, and it is `p`. -/
def uniqueWinner (b : Board) (p : ℕ) : Prop :=
  ∀ r < 6, ∀ c < 7, cellN b r c ≠ 0 →
    is_winning_move b r c (cellN b r c) = true → cellN b r c = p

instance (b : Board) (p : ℕ) : Decidable (uniqueWinner b p) := by
  unfold uniqueWinner; infer_instance

/-! Claim C6. -/

/-- Claim C6, counterexample.  The horizontal window at row 4, columns 0-3
of `B6` is `[2,2,2,0]` (three AI pieces, one empty cell).  Its empty cell
sits at grid position `(4, 3)` and is NOT immediately playable — the cell
below it, `(5, 3)`, is empty (`is_accessible B6 4 3 = false`, the source's
own grid-level playability test, ai.py 190-192).  The claim therefore
demands the undoubled `+50,000,000`; `evaluate_window` nevertheless doubles
to `+100,000,000`, because `_is_accessible_in_window` only inspects the
positions AFTER the empty one inside the 4-cell window list (here: none),
not the grid column below the cell. -/
theorem C6_counterexample :
    window_row B6 4 0 = [2, 2, 2, 0] ∧
    is_accessible B6 4 3 = false ∧
    evaluate_window defaultCfg (window_row B6 4 0) 2 = 100000000 := by
  decide

/-- Claim C6 (amended): for a 4-cell window holding exactly three of the
scored player's pieces and one empty cell, `evaluate_window` contributes
`+50,000,000`, doubled to `+100,000,000` if and only if every position
after the (unique) empty cell WITHIN the window is nonempty
(`_is_accessible_in_window`) — for a horizontal window these are the cells
to its right in the row, for a vertical window the window cells below it;
grid playability of the empty cell plays no role. -/
theorem C6_window_score (cfg : AIConfig) (w : List ℕ) (p : ℕ)
    (_hlen : w.length = 4) (hp : w.count p = 3) (h0 : w.count 0 = 1) :
    evaluate_window cfg w p =
      if is_accessible_in_window w (w.indexOf 0) then 100000000 else 50000000 := by
  simp [evaluate_window, hp, h0]

/-- Claim C6, witness for the amended theorem: the window `[2,0,2,2]`. -/
theorem C6_window_score_witness :
    evaluate_window defaultCfg [2, 0, 2, 2] 2 =
      if is_accessible_in_window [2, 0, 2, 2] ([2, 0, 2, 2].indexOf 0)
      then 100000000 else 50000000 :=
  C6_window_score defaultCfg [2, 0, 2, 2] 2 (by decide) (by decide) (by decide)

/-! Claim C7. -/

/-- Claim C7, counterexample.  On `B7` player 2 owns exactly one piece in
each of columns 2, 3 and 4.  The claim's reading — `8000·1` for the centre,
`5000·1` for each adjacent column, and a flat `+3000` bonus added exactly
once — predicts 21,000; the code adds the `+3000` bonus once per occupied
adjacent column (inside the `for col in [2, 4]` loop), producing 24,000. -/
theorem C7_counterexample :
    center_adjacent_score B7 2 = 24000 ∧
    center_adjacent_score B7 2 ≠ 8000 * 1 + 5000 * (1 + 1) + 3000 := by
  decide

/-- Claim C7 (amended): the centre/adjacent block of `score_position`
contributes `8000` per centre-column piece of `player` and `5000` per piece
in columns 2 and 4, plus a `+3000` bonus FOR EACH of columns 2 and 4 that
is occupied by `player` while the centre column also is (so the flat bonus
is 0, 3000, or 6000 — not "exactly once"). -/
theorem C7_center_adjacent (b : Board) (p : ℕ) :
    center_adjacent_score b p =
      8000 * ((col_array b 3).count p : ℤ) +
      5000 * ((col_array b 2).count p : ℤ) +
      5000 * ((col_array b 4).count p : ℤ) +
      3000 * ((if 0 < (col_array b 2).count p ∧ 0 < (col_array b 3).count p
               then 1 else 0) +
              (if 0 < (col_array b 4).count p ∧ 0 < (col_array b 3).count p
               then 1 else 0)) := by
  simp only [center_adjacent_score, List.foldl]
  split_ifs <;> ring

/-! Claim C10. -/

/-- Claim C10: `minimax` is not a function of its board argument alone.
Two call pairs, each with IDENTICAL board arguments, depth, alpha, beta and
maximizing flag, but different live `GameState`s, return different
`(column, score)` results: (a) with the empty board as board argument, a
live grid won by the human yields `(None, -inf)` while a live grid won by
the AI yields `(None, +inf)` — the terminal test and winner lookup read
`self.game`, not the board argument; (b) with `B10` as board argument, a
live empty grid returns column 0 while a live grid whose column 0 is full
returns column 4 — the candidate columns and open rows also come from the
live grid. -/
theorem C10_live_state_dependence :
    minimax defaultCfg s10a emptyBoard 0 Score.negInf Score.posInf true =
      (none, Score.negInf) ∧
    minimax defaultCfg s10b emptyBoard 0 Score.negInf Score.posInf true =
      (none, Score.posInf) ∧
    minimax defaultCfg initState B10 6 Score.negInf Score.posInf true =
      (some 0, Score.posInf) ∧
    minimax defaultCfg s10d B10 6 Score.negInf Score.posInf true =
      (some 4, Score.posInf) := by
  decide

/-! Claim C3. -/

/-- Claim C3, counterexample.  At `sC3` (human threatens on the bottom row,
the AI has no immediate win) the block check of `minimax` fires at column 0
and the node returns score `float('inf') - 1` — which in Python float
arithmetic IS `+inf` (`inf_minus_one = Score.posInf`), so the block's score
is NOT strictly less than the win score `+inf`: `Score.lt` between the two
is `false`. -/
theorem C3_counterexample :
    immediate_win_col defaultCfg sC3 sC3.board = none ∧
    immediate_block_col defaultCfg sC3 sC3.board = some 0 ∧
    minimax defaultCfg sC3 sC3.board 6 Score.negInf Score.posInf true =
      (some 0, Score.posInf) ∧
    Score.lt (minimax defaultCfg sC3 sC3.board 6 Score.negInf Score.posInf
      true).2 Score.posInf = false := by
  decide

/-- Claim C3 (amended): at every `minimax` node an immediate AI win returns
that column with score `+inf`, and an immediate block returns that column
with score `float('inf') - 1`, which equals `+inf` — NOT a value strictly
below the win score.  A guaranteed win is nevertheless preferred to a
guaranteed block at the same node, because the win loop runs first: if
`immediate_win_col` fires, the block loop is never consulted. -/
theorem C3_win_block_scores (cfg : AIConfig) (s : GameState) (b : Board)
    (depth : ℕ) (α β : Score) (m : Bool) (c : ℕ)
    (h : immediate_win_col cfg s b = some c ∨
         (immediate_win_col cfg s b = none ∧
          immediate_block_col cfg s b = some c)) :
    minimax cfg s b depth α β m = (some c, Score.posInf) := by
  rcases h with hw | ⟨hw, hb⟩ <;>
    cases depth <;>
      simp [minimax, minimaxAux, minimax_entry, hw, inf_minus_one]
  all_goals simp [hb]

/-- Claim C3, witness: at `sC3w` both a win (column 3 completes the AI's
`2,2,2`) and a block (column 3 also completes the human's `1,1,1`) are
available; the win fires and the returned score is `+inf`. -/
theorem C3_win_block_scores_witness :
    minimax defaultCfg sC3w sC3w.board 6 Score.negInf Score.posInf true =
      (some 3, Score.posInf) :=
  C3_win_block_scores defaultCfg sC3w sC3w.board 6 Score.negInf Score.posInf
    true 3 (Or.inl (by decide))

/-! Claim C2. -/

/-- Claim C2, counterexample.  Call `minimax` with depth 0, the live game in
its initial (empty, non-terminal) state, and the board ARGUMENT `B2`, which
is terminal with the AI as its winner (`check_winner B2 = some 2`).  The
claim demands the score `+inf`; the code instead runs its terminal test on
the LIVE grid, finds nothing, and returns the finite heuristic
`score_position(B2, AI)` — the result's score is finite, not `+inf`. -/
theorem C2_counterexample :
    check_winner B2 = some defaultCfg.AI ∧
    is_terminal_live initState = false ∧
    (minimax defaultCfg initState B2 0 Score.negInf Score.posInf true).1 =
      none ∧
    (minimax defaultCfg initState B2 0 Score.negInf Score.posInf
      true).2 ≠ Score.posInf :=
  ⟨by decide, by decide, by decide,
   Score.isFinite_ne_posInf (by decide)⟩

/-- Claim C2 (amended): when neither tactical short-circuit fires and the
node is a leaf — depth 0, or the LIVE grid (not the board argument) is
terminal — `minimax` returns column `None` with: `+inf` if the live winner
is the AI, `-inf` if the live winner is the human identity, `0` for a
live-terminal position without winner (full board), and otherwise (depth
exhausted, live grid non-terminal) the heuristic `score_position(board,
AI)` of the board argument. -/
theorem C2_leaf_value (cfg : AIConfig) (s : GameState) (b : Board)
    (depth : ℕ) (α β : Score) (m : Bool)
    (hw : immediate_win_col cfg s b = none)
    (hb : immediate_block_col cfg s b = none)
    (hleaf : depth = 0 ∨ is_terminal_live s = true) :
    minimax cfg s b depth α β m =
      (none,
       if is_terminal_live s then
         (match check_winner s.board with
          | some w =>
            if w = cfg.AI then Score.posInf
            else if w = cfg.PLAYER then Score.negInf
            else Score.finite 0
          | none => Score.finite 0)
       else Score.finite (score_position cfg b cfg.AI)) := by
  have hmm : minimax cfg s b depth α β m = leaf_value cfg s b := by
    cases depth with
    | zero => simp [minimax, minimaxAux, minimax_entry, hw, hb]
    | succ d =>
      rcases hleaf with h0 | hterm
      · exact absurd h0 (by omega)
      · simp [minimax, minimaxAux, minimax_entry, hw, hb, hterm]
  rw [hmm]
  unfold leaf_value
  cases hts : is_terminal_live s with
  | false => simp
  | true =>
    cases hcw : check_winner s.board with
    | none => simp [hcw]
    | some w => simp only [hcw, if_true]; split_ifs <;> simp

/-- Claim C2, witness: at the doubly-continued state `sC1` the live grid is
terminal with winner 1 (the human identity of the default configuration)
and neither short-circuit fires, so a depth-6 call returns `(None, -inf)`. -/
theorem C2_leaf_value_witness :
    minimax defaultCfg sC1 sC1.board 6 Score.negInf Score.posInf true =
      (none, Score.negInf) :=
  (C2_leaf_value defaultCfg sC1 sC1.board 6 Score.negInf Score.posInf true
    (by decide) (by decide) (Or.inr (by decide))).trans (by decide)

/-! Claim C4. -/

/-- If the bottom-up scan finds no empty cell, every row up to its start is
occupied. -/
theorem scanOpen_eq_none {b : Board} {col : ℕ} :
    ∀ r, scanOpen b col r = none → ∀ r2 ≤ r, cellN b r2 col ≠ 0 := by
  intro r
  induction r with
  | zero =>
    intro h r2 hr2
    interval_cases r2
    simp only [scanOpen] at h
    intro h0
    simp [h0] at h
  | succ n ih =>
    intro h r2 hr2
    simp only [scanOpen] at h
    by_cases hc : cellN b (n+1) col = 0
    · simp [hc] at h
    · simp [hc] at h
      rcases Nat.lt_or_ge r2 (n+1) with hlt | hge
      · exact ih h r2 (by omega)
      · have : r2 = n + 1 := by omega
        simpa [this] using hc

/-- If the bottom-up scan returns a row, that row is empty, lies within the
scanned range, and every row strictly below it (within the range) is
occupied: it is the lowest empty row. -/
theorem scanOpen_eq_some {b : Board} {col : ℕ} :
    ∀ r row, scanOpen b col r = some row →
      row ≤ r ∧ cellN b row col = 0 ∧
        ∀ r2, row < r2 → r2 ≤ r → cellN b r2 col ≠ 0 := by
  intro r
  induction r with
  | zero =>
    intro row h
    simp only [scanOpen] at h
    by_cases hc : cellN b 0 col = 0
    · simp [hc] at h
      exact ⟨by omega, by simp [← h, hc], by omega⟩
    · simp [hc] at h
  | succ n ih =>
    intro row h
    simp only [scanOpen] at h
    by_cases hc : cellN b (n+1) col = 0
    · simp [hc] at h
      refine ⟨by omega, by simp [← h, hc], ?_⟩
      omega
    · simp [hc] at h
      obtain ⟨h1, h2, h3⟩ := ih row h
      refine ⟨by omega, h2, ?_⟩
      intro r2 hlt hle
      rcases Nat.lt_or_ge r2 (n+1) with hl | hg
      · exact h3 r2 hlt (by omega)
      · have : r2 = n + 1 := by omega
        simpa [this] using hc

/-- Reading a cell after `set_cell`, within bounds. -/
theorem cellN_set_cell {b : Board} {row col v : ℕ} {r c : ℕ}
    (hr : r < 6) (hc : c < 7) :
    cellN (set_cell b row col v) r c =
      if r = row ∧ c = col then v else cellN b r c := by
  unfold cellN set_cell
  simp [hr, hc]

/-- Claim C4: the `make_move` contract.  With the grid obeying the gravity
invariant: (a) a move by the wrong player, with an out-of-range column, or
into a full column is rejected with result `False` and a completely
unchanged state; (b) otherwise the move succeeds: the piece is written into
the lowest empty row of the column (the row is empty, all rows below it
occupied), `current_player` flips to the other player
(`2 if current_player == 1 else 1`), and the result is `True`; (c) after
any successful move by `p`, every immediately following `make_move` by the
same `p` is rejected with no state change — two consecutive moves by one
side are impossible through this entry point. -/
theorem C4_make_move_contract (s : GameState) (col p : ℕ)
    (hinv : noFloating s.board) :
    ((p ≠ s.current_player ∨ 7 ≤ col ∨ (∀ r < 6, cellN s.board r col ≠ 0)) →
      make_move s col p = (false, s)) ∧
    (p = s.current_player → col < 7 →
      ¬(∀ r < 6, cellN s.board r col ≠ 0) →
      ∃ row, row < 6 ∧ cellN s.board row col = 0 ∧
        (∀ r2, row < r2 → r2 < 6 → cellN s.board r2 col ≠ 0) ∧
        make_move s col p =
          (true, ⟨set_cell s.board row col p,
                  if s.current_player = 1 then 2 else 1⟩)) ∧
    (∀ s2, make_move s col p = (true, s2) →
      ∀ col2, make_move s2 col2 p = (false, s2)) := by
  refine ⟨?_, ?_, ?_⟩
  · rintro (hp | hcol | hfull)
    · simp [make_move, hp]
    · have : is_valid_move s col = false := by
        simp [is_valid_move]
        omega
      simp [make_move, this]
    · have : is_valid_move s col = false := by
        simp only [is_valid_move]
        by_cases h7 : col < 7
        · have := hfull 0 (by omega)
          simp [h7, this]
        · simp [h7]
      simp [make_move, this]
  · intro hp h7 hfull
    push_neg at hfull
    obtain ⟨r0, hr0, hr0e⟩ := hfull
    have htop : cellN s.board 0 col = 0 :=
      noFloating_above hinv 0 r0 col (by omega) hr0 h7 (by simpa using hr0e)
    have hvalid : is_valid_move s col = true := by
      simp [is_valid_move, h7, htop]
    have hscan : ∃ row, scanOpen s.board col 5 = some row := by
      cases hs : scanOpen s.board col 5 with
      | none => exact absurd htop (scanOpen_eq_none 5 hs 0 (by omega))
      | some row => exact ⟨row, rfl⟩
    obtain ⟨row, hrow⟩ := hscan
    obtain ⟨hle, hempty, hoccbelow⟩ := scanOpen_eq_some 5 row hrow
    refine ⟨row, by omega, hempty, ?_, ?_⟩
    · intro r2 h1 h2
      exact hoccbelow r2 h1 (by omega)
    · simp [make_move, hp, hvalid, hrow]
  · intro s2 hmove col2
    have key : p = s.current_player ∧
        s2.current_player = (if s.current_player = 1 then 2 else 1) := by
      unfold make_move at hmove
      by_cases hpe : p ≠ s.current_player
      · rw [if_pos hpe] at hmove
        simp at hmove
      · rw [if_neg hpe] at hmove
        push_neg at hpe
        by_cases hv : (!(is_valid_move s col)) = true
        · rw [if_pos hv] at hmove
          simp at hmove
        · rw [if_neg hv] at hmove
          cases hscan : scanOpen s.board col 5 with
          | none =>
            rw [hscan] at hmove
            simp at hmove
          | some row =>
            rw [hscan] at hmove
            have h2 := ((Prod.mk.injEq _ _ _ _).mp hmove).2
            subst h2
            exact ⟨hpe, rfl⟩
    obtain ⟨hpeq, hcp⟩ := key
    have hne2 : p ≠ s2.current_player := by
      rw [hcp, hpeq]
      split_ifs with h1 <;> omega
    simp [make_move, hne2]

/-- Claim C4, witness: at the initial state an out-of-range column request
(column 9) is rejected without mutation. -/
theorem C4_make_move_contract_witness :
    make_move initState 9 1 = (false, initState) :=
  (C4_make_move_contract initState 9 1 (by decide)).1
    (Or.inr (Or.inl (by omega)))

/-! Claim C8. -/

theorem noFloating_emptyBoard : noFloating emptyBoard := by
  intro r _ c _ hocc
  simp [cellN, emptyBoard] at hocc

/-- A successful `make_move` placement preserves the gravity invariant:
the piece goes to the lowest empty row, below which everything is already
occupied. -/
theorem noFloating_stepOp (s : GameState) (op : Op)
    (h : noFloating s.board) : noFloating (stepOp s op).board := by
  cases op with
  | reset p => exact noFloating_emptyBoard
  | q_is_valid col => exact h
  | q_next_open col => exact h
  | q_winner => exact h
  | q_full => exact h
  | q_current => exact h
  | move col p =>
    simp only [stepOp, make_move]
    by_cases hpe : p ≠ s.current_player
    · rw [if_pos hpe]; exact h
    · rw [if_neg hpe]
      by_cases hv : (!(is_valid_move s col)) = true
      · rw [if_pos hv]; exact h
      · rw [if_neg hv]
        cases hscan : scanOpen s.board col 5 with
        | none => exact h
        | some row =>
          obtain ⟨hle, hempty, hoccbelow⟩ := scanOpen_eq_some 5 row hscan
          intro r hr c hc hocc
          have hr6 : r < 6 := by omega
          have hr16 : r + 1 < 6 := by omega
          rw [cellN_set_cell hr6 hc] at hocc
          rw [cellN_set_cell hr16 hc]
          by_cases hat : r = row ∧ c = col
          · -- the freshly written cell: the row below it was scanned occupied
            rw [if_neg (by omega : ¬(r + 1 = row ∧ c = col))]
            obtain ⟨hrr, hcc⟩ := hat
            subst hrr; subst hcc
            exact hoccbelow (r+1) (by omega) (by omega)
          · rw [if_neg hat] at hocc
            by_cases hat2 : r + 1 = row ∧ c = col
            · -- impossible: the cell just below an occupied cell was empty
              exfalso
              obtain ⟨hrr, hcc⟩ := hat2
              have := h r (by omega) c hc hocc
              rw [hrr, hcc] at this
              exact this hempty
            · rw [if_neg hat2]
              exact h r hr c hc hocc

/-- Claim C8: every state reachable from the initial empty board through
any sequence of engine operations (`make_move`, `reset`, and the read-only
queries) satisfies the no-floating-pieces invariant: in every column the
occupied cells form a contiguous run ending at the bottom row. -/
theorem C8_invariant_reachable (ops : List Op) :
    noFloating (runOps initState ops).board := by
  suffices hgen : ∀ (s : GameState), noFloating s.board →
      noFloating (runOps s ops).board from
    hgen initState noFloating_emptyBoard
  induction ops with
  | nil => intro s hs; exact hs
  | cons op rest ih =>
    intro s hs
    exact ih (stepOp s op) (noFloating_stepOp s op hs)

/-! Claim C9. -/

/-- If each recursive call leaves the live state unchanged, so does the
whole maximizing loop. -/
theorem max_loop_state (cfg : AIConfig)
    (next : GameState → Board → Score → Score → ((Option ℕ × Score) × GameState))
    (hnext : ∀ st bb a2 b2, (next st bb a2 b2).2 = st) :
    ∀ (cols : List ℕ) (st : GameState) (b : Board) (column : ℕ)
      (value α β : Score),
      (max_loop cfg next cols st b column value α β).2 = st := by
  intro cols
  induction cols with
  | nil => intro st b column value α β; rfl
  | cons col rest ih =>
    intro st b column value α β
    simp only [max_loop]
    cases hrow : get_next_open_row st col with
    | none => exact ih st b column value α β
    | some row =>
      simp only
      rw [hnext st (set_cell b row col cfg.AI) α β]
      split_ifs <;> first | rfl | apply ih

/-- Symmetric state preservation for the minimizing loop. -/
theorem min_loop_state (cfg : AIConfig)
    (next : GameState → Board → Score → Score → ((Option ℕ × Score) × GameState))
    (hnext : ∀ st bb a2 b2, (next st bb a2 b2).2 = st) :
    ∀ (cols : List ℕ) (st : GameState) (b : Board) (column : ℕ)
      (value α β : Score),
      (min_loop cfg next cols st b column value α β).2 = st := by
  intro cols
  induction cols with
  | nil => intro st b column value α β; rfl
  | cons col rest ih =>
    intro st b column value α β
    simp only [min_loop]
    cases hrow : get_next_open_row st col with
    | none => exact ih st b column value α β
    | some row =>
      simp only
      rw [hnext st (set_cell b row col cfg.PLAYER) α β]
      split_ifs <;> first | rfl | apply ih

/-- The whole minimax recursion returns the live game state it was given:
every hypothetical placement happens on a copy of the board argument. -/
theorem minimaxAux_state (cfg : AIConfig) :
    ∀ (depth : ℕ) (s : GameState) (b : Board) (α β : Score) (m : Bool),
      (minimaxAux cfg depth s b α β m).2 = s := by
  intro depth
  induction depth with
  | zero => intro s b α β m; rfl
  | succ d ih =>
    intro s b α β m
    simp only [minimaxAux]
    cases hentry : minimax_entry cfg s b with
    | some r => rfl
    | none =>
      simp only
      split
      · rfl
      · cases hvl : valid_locations s with
        | nil => rfl
        | cons c0 rest =>
          simp only
          split
          · exact max_loop_state cfg _ (fun st bb a2 b2 => ih st bb a2 b2 false)
              (c0 :: rest) s b c0 Score.negInf α β
          · exact min_loop_state cfg _ (fun st bb a2 b2 => ih st bb a2 b2 true)
              (c0 :: rest) s b c0 Score.posInf α β

/-- Claim C9: `get_best_move` (the three tactical phases plus the full
depth-6 minimax search it may trigger) leaves the live `GameState` — grid
and `current_player` — exactly as it was: the state threaded through the
search comes back unchanged, since every simulated placement occurs on an
independent copy of the grid. -/
theorem C9_search_preserves_state (cfg : AIConfig) (s : GameState) :
    (get_best_move_st cfg s).2 = s := by
  unfold get_best_move_st
  cases phase_win cfg s with
  | some c => rfl
  | none =>
    cases phase_block cfg s with
    | some c => rfl
    | none =>
      cases phase_fork cfg s with
      | some c => rfl
      | none =>
        simp only
        exact minimaxAux_state cfg 6 s s.board Score.negInf Score.posInf true

/-! Claim C1. -/

/-- Generic inversion for the `findSome?` pattern shared by the tactical
phases: a returned column is a member of the scanned list, has an open row,
and satisfies the guard. -/
theorem findSome_guard_mem {g : ℕ → Option ℕ} {P : ℕ → ℕ → Prop}
    [∀ c r, Decidable (P c r)] {l : List ℕ} {c : ℕ}
    (h : (l.findSome? fun col =>
        match g col with
        | none => none
        | some row => if P col row then some col else none) = some c) :
    c ∈ l ∧ ∃ row, g c = some row ∧ P c row := by
  obtain ⟨a, ha, hfa⟩ := List.exists_of_findSome?_eq_some h
  cases hg : g a with
  | none => rw [hg] at hfa; simp at hfa
  | some row =>
    rw [hg] at hfa
    by_cases hP : P a row
    · obtain rfl : a = c := by simpa [hP] using hfa
      exact ⟨ha, row, hg, hP⟩
    · exfalso
      simp [hP] at hfa

theorem is_valid_move_lt {s : GameState} {col : ℕ}
    (h : is_valid_move s col = true) : col < 7 := by
  simp [is_valid_move] at h
  exact h.1

theorem is_valid_move_top {s : GameState} {col : ℕ}
    (h : is_valid_move s col = true) : cellN s.board 0 col = 0 := by
  simp [is_valid_move] at h
  exact h.2

/-- Membership in `valid_locations` is exactly `is_valid_move`. -/
theorem mem_valid_locations {s : GameState} {col : ℕ} :
    col ∈ valid_locations s ↔ is_valid_move s col = true := by
  unfold valid_locations
  rw [List.mem_filter, List.mem_range]
  constructor
  · exact fun h => h.2
  · exact fun h => ⟨is_valid_move_lt h, h⟩

/-- On a gravity-respecting grid, a column with an open row is a valid
move: the empty cell found by the scan forces the top cell to be empty. -/
theorem is_valid_of_open_row {s : GameState} {col row : ℕ}
    (hinv : noFloating s.board) (h7 : col < 7)
    (h : get_next_row s.board col = some row) :
    is_valid_move s col = true := by
  obtain ⟨hle, hempty, -⟩ := scanOpen_eq_some 5 row h
  have htop : cellN s.board 0 col = 0 :=
    noFloating_above hinv 0 row col (by omega) (by omega) h7 hempty
  simp [is_valid_move, h7, htop]

/-- A valid column witnesses that the board is not full. -/
theorem not_full_of_valid {s : GameState} {col : ℕ}
    (h : is_valid_move s col = true) : is_board_full s.board = false := by
  have h7 := is_valid_move_lt h
  have htop := is_valid_move_top h
  simp only [is_board_full, Bool.not_eq_false']
  rw [List.any_eq_true]
  exact ⟨col, List.mem_range.mpr h7, by simp [htop]⟩

/-- A column returned by the minimax win short-circuit is legal. -/
theorem immediate_win_col_mem {cfg : AIConfig} {s : GameState} {b : Board}
    {c : ℕ} (h : immediate_win_col cfg s b = some c) :
    c ∈ valid_locations s :=
  (findSome_guard_mem h).1

/-- A column returned by the minimax block short-circuit is legal. -/
theorem immediate_block_col_mem {cfg : AIConfig} {s : GameState} {b : Board}
    {c : ℕ} (h : immediate_block_col cfg s b = some c) :
    c ∈ valid_locations s :=
  (findSome_guard_mem h).1

/-- A fired `minimax_entry` returns a legal column (with score `+inf`). -/
theorem minimax_entry_mem {cfg : AIConfig} {s : GameState} {b : Board}
    {r : Option ℕ × Score} (h : minimax_entry cfg s b = some r) :
    ∃ c ∈ valid_locations s, r.1 = some c := by
  unfold minimax_entry at h
  cases hw : immediate_win_col cfg s b with
  | some c =>
    rw [hw] at h
    obtain rfl : (some c, Score.posInf) = r := by simpa using h
    exact ⟨c, immediate_win_col_mem hw, rfl⟩
  | none =>
    rw [hw] at h
    cases hb : immediate_block_col cfg s b with
    | some c =>
      rw [hb] at h
      obtain rfl : (some c, inf_minus_one) = r := by simpa using h
      exact ⟨c, immediate_block_col_mem hb, rfl⟩
    | none => rw [hb] at h; simp at h

/-- The column tracked by the maximizing loop is the initial one or one of
the scanned columns. -/
theorem max_loop_mem (cfg : AIConfig)
    (next : GameState → Board → Score → Score → ((Option ℕ × Score) × GameState)) :
    ∀ (cols : List ℕ) (st : GameState) (b : Board) (column : ℕ)
      (value α β : Score),
      (max_loop cfg next cols st b column value α β).1.1 = column ∨
      (max_loop cfg next cols st b column value α β).1.1 ∈ cols := by
  intro cols
  induction cols with
  | nil => intro st b column value α β; exact Or.inl rfl
  | cons col rest ih =>
    intro st b column value α β
    simp only [max_loop]
    cases hrow : get_next_open_row st col with
    | none =>
      rcases ih st b column value α β with h | h
      · exact Or.inl h
      · exact Or.inr (List.mem_cons_of_mem _ h)
    | some row =>
      simp only
      generalize next st (set_cell b row col cfg.AI) α β = r
      split_ifs with h1 h2 h3
      · exact Or.inr (List.mem_cons_self _ _)
      · rcases ih r.2 b col r.1.2 (pymax α r.1.2) β with h | h
        · exact Or.inr (by rw [h]; exact List.mem_cons_self _ _)
        · exact Or.inr (List.mem_cons_of_mem _ h)
      · exact Or.inl rfl
      · rcases ih r.2 b column value (pymax α value) β with h | h
        · exact Or.inl h
        · exact Or.inr (List.mem_cons_of_mem _ h)

/-- At a non-terminal node with positive depth and a nonempty set of legal
columns, the root of the minimax recursion returns a column drawn from
`valid_locations`. -/
theorem minimax_root_valid (cfg : AIConfig) (s : GameState) (b : Board)
    (α β : Score) (d : ℕ) (hterm : is_terminal_live s = false)
    (hne : valid_locations s ≠ []) :
    ∃ c ∈ valid_locations s,
      (minimaxAux cfg (d+1) s b α β true).1.1 = some c := by
  simp only [minimaxAux]
  cases hentry : minimax_entry cfg s b with
  | some r =>
    obtain ⟨c, hc, hr⟩ := minimax_entry_mem hentry
    exact ⟨c, hc, hr⟩
  | none =>
    simp only [hterm]
    cases hvl : valid_locations s with
    | nil => exact absurd hvl hne
    | cons c0 rest =>
      simp only [Bool.false_eq_true, if_false, if_true]
      rcases max_loop_mem cfg (fun st bb a2 b2 => minimaxAux cfg d st bb a2 b2 false)
          (c0 :: rest) s b c0 Score.negInf α β with h | h
      · exact ⟨c0, List.mem_cons_self _ _, by rw [h]⟩
      · exact ⟨_, h, rfl⟩

/-- Claim C1 (amended): whenever the live grid respects the gravity
invariant, has at least one legal column, and does NOT already contain a
completed line (`check_winner` is none), `get_best_move` returns a column
`c` with `is_valid_move c` true — it never returns `None` or an
out-of-range column under these premises.  (Without the no-winner premise
the claim fails, see the counterexample: on an already-won board the
minimax fallback hits its terminal branch and `get_best_move` passes its
column `None` through.) -/
theorem C1_best_move_valid (cfg : AIConfig) (s : GameState) (col : ℕ)
    (hinv : noFloating s.board) (hvalid : is_valid_move s col = true)
    (hnowin : check_winner s.board = none) :
    ∃ c, get_best_move cfg s = some c ∧ is_valid_move s c = true := by
  have hterm : is_terminal_live s = false := by
    simp [is_terminal_live, hnowin, not_full_of_valid hvalid]
  unfold get_best_move get_best_move_st
  cases hw : phase_win cfg s with
  | some c =>
    obtain ⟨hc7, row, hrow, -⟩ := findSome_guard_mem hw
    exact ⟨c, rfl,
      is_valid_of_open_row hinv (List.mem_range.mp hc7) hrow⟩
  | none =>
    cases hb : phase_block cfg s with
    | some c =>
      obtain ⟨hc7, row, hrow, -⟩ := findSome_guard_mem hb
      exact ⟨c, rfl,
        is_valid_of_open_row hinv (List.mem_range.mp hc7) hrow⟩
    | none =>
      cases hf : phase_fork cfg s with
      | some c =>
        obtain ⟨hc7, row, hrow, -⟩ := findSome_guard_mem hf
        exact ⟨c, rfl,
          is_valid_of_open_row hinv (List.mem_range.mp hc7) hrow⟩
      | none =>
        have hne : valid_locations s ≠ [] :=
          List.ne_nil_of_mem (mem_valid_locations.mpr hvalid)
        obtain ⟨c, hc, hres⟩ :=
          minimax_root_valid cfg s s.board Score.negInf Score.posInf 5
            hterm hne
        exact ⟨c, by simpa using hres, mem_valid_locations.mp hc⟩

/-- Claim C1, witness for the amended theorem: on the initial empty board a
valid column is returned. -/
theorem C1_best_move_valid_witness :
    ∃ c, get_best_move defaultCfg initState = some c ∧
      is_valid_move initState c = true :=
  C1_best_move_valid defaultCfg initState 0 (by decide) (by decide) (by decide)

/-- Claim C1, counterexample.  `sC1` is reached from the empty board by the
ten accepted alternating moves of `movesC1` (the engine accepts moves after
a completed line), respects the gravity invariant, and offers six legal
columns (column 1 among them); yet `get_best_move` returns `None`: no
tactical phase fires, and the minimax fallback hits its live-terminal
branch (`check_winner` finds player 1's finished column) which carries
column `None`. -/
theorem C1_counterexample :
    runOps initState movesC1 = sC1 ∧
    noFloating sC1.board ∧
    is_valid_move sC1 1 = true ∧
    get_best_move defaultCfg sC1 = none := by
  refine ⟨rfl, by decide, by decide, by decide⟩

/-! Claim C5. -/

/-- Generic inversion for a `check_winner` scanning pass that returned a
player. -/
theorem pass_some_inv {rows cols : List ℕ} {Q : ℕ → ℕ → Prop}
    [∀ r c, Decidable (Q r c)] {g : ℕ → ℕ → ℕ} {v : ℕ}
    (h : (rows.findSome? fun row => cols.findSome? fun col =>
        if Q row col then some (g row col) else none) = some v) :
    ∃ row ∈ rows, ∃ col ∈ cols, Q row col ∧ g row col = v := by
  obtain ⟨row, hrow, hinner⟩ := List.exists_of_findSome?_eq_some h
  obtain ⟨col, hcol, hguard⟩ := List.exists_of_findSome?_eq_some hinner
  by_cases hQ : Q row col
  · refine ⟨row, hrow, col, hcol, hQ, ?_⟩
    simpa [hQ] using hguard
  · exfalso
    simp [hQ] at hguard

/-- Generic inversion for a scanning pass that found nothing. -/
theorem pass_none_inv {rows cols : List ℕ} {Q : ℕ → ℕ → Prop}
    [∀ r c, Decidable (Q r c)] {g : ℕ → ℕ → ℕ}
    (h : (rows.findSome? fun row => cols.findSome? fun col =>
        if Q row col then some (g row col) else none) = none) :
    ∀ row ∈ rows, ∀ col ∈ cols, ¬ Q row col := by
  intro row hrow col hcol hQ
  rw [List.findSome?_eq_none_iff] at h
  have hinner := h row hrow
  rw [List.findSome?_eq_none_iff] at hinner
  have := hinner col hcol
  simp [hQ] at this

/-- `check_winner` is `none` exactly when all four passes are. -/
theorem check_winner_none_parts {b : Board} :
    check_winner b = none ↔
      cw_horizontal b = none ∧ cw_vertical b = none ∧
      cw_posdiag b = none ∧ cw_negdiag b = none := by
  unfold check_winner
  cases cw_horizontal b <;> cases cw_vertical b <;>
    cases cw_posdiag b <;> cases cw_negdiag b <;> simp

/-- A window of four equal cells (as a `List.all` over `range 4`) unpacked
into the four pointwise equalities. -/
theorem window_cells {f : ℕ → ℕ} {p : ℕ}
    (h : ((List.range 4).all fun i => f i == p) = true) :
    f 0 = p ∧ f 1 = p ∧ f 2 = p ∧ f 3 = p := by
  simp only [List.all_eq_true, List.mem_range, beq_iff_eq] at h
  exact ⟨h 0 (by omega), h 1 (by omega), h 2 (by omega), h 3 (by omega)⟩

/-- A completed horizontal window starting at `(row, col)` makes
`is_winning_move` fire at its start cell. -/
theorem iwm_of_horiz {b : Board} {row col v : ℕ} (hcol : col < 4)
    (h0 : cellN b row col = v) (h1 : cellN b row (col+1) = v)
    (h2 : cellN b row (col+2) = v) (h3 : cellN b row (col+3) = v) :
    is_winning_move b row col v = true := by
  unfold is_winning_move
  simp only [Bool.or_eq_true]
  left; left; left
  rw [List.any_eq_true]
  refine ⟨col, ?_, ?_⟩
  · rw [List.mem_range'_1]
    omega
  · simp only [List.all_eq_true, List.mem_range, beq_iff_eq]
    intro i hi
    interval_cases i <;> simp [h0, h1, h2, h3]

/-- A completed vertical window starting at `(row, col)` makes
`is_winning_move` fire at its start (top) cell. -/
theorem iwm_of_vert {b : Board} {row col v : ℕ} (hrow : row ≤ 2)
    (h0 : cellN b row col = v) (h1 : cellN b (row+1) col = v)
    (h2 : cellN b (row+2) col = v) (h3 : cellN b (row+3) col = v) :
    is_winning_move b row col v = true := by
  unfold is_winning_move
  simp only [Bool.or_eq_true]
  left; left; right
  simp only [Bool.and_eq_true, decide_eq_true_eq]
  refine ⟨hrow, ?_⟩
  simp only [List.all_eq_true, List.mem_range, beq_iff_eq]
  intro i hi
  interval_cases i <;> simp [h0, h1, h2, h3]

/-- A completed positive-slope window starting at `(row, col)` makes
`is_winning_move` fire at its start cell (the `t = 0` offset). -/
theorem iwm_of_posdiag {b : Board} {row col v : ℕ}
    (hrow : row ≤ 2) (hcol : col ≤ 3)
    (h0 : cellN b row col = v) (h1 : cellN b (row+1) (col+1) = v)
    (h2 : cellN b (row+2) (col+2) = v) (h3 : cellN b (row+3) (col+3) = v) :
    is_winning_move b row col v = true := by
  unfold is_winning_move
  simp only [Bool.or_eq_true]
  left; right
  rw [List.any_eq_true]
  refine ⟨0, by simp, ?_⟩
  simp only [Bool.and_eq_true, decide_eq_true_eq]
  refine ⟨⟨by omega, by omega⟩, ?_⟩
  simp only [List.all_eq_true, List.mem_range, beq_iff_eq]
  intro j hj
  interval_cases j <;> simp [h0, h1, h2, h3]

/-- A completed negative-slope window starting at `(row, col)` (going
up-right) makes `is_winning_move` fire at its start (bottom-left) cell. -/
theorem iwm_of_negdiag {b : Board} {row col v : ℕ}
    (hrow1 : 3 ≤ row) (hrow2 : row < 6) (hcol : col ≤ 3)
    (h0 : cellN b row col = v) (h1 : cellN b (row-1) (col+1) = v)
    (h2 : cellN b (row-2) (col+2) = v) (h3 : cellN b (row-3) (col+3) = v) :
    is_winning_move b row col v = true := by
  unfold is_winning_move
  simp only [Bool.or_eq_true]
  right
  rw [List.any_eq_true]
  refine ⟨0, by simp, ?_⟩
  simp only [Bool.and_eq_true, decide_eq_true_eq]
  refine ⟨⟨by omega, by omega⟩, ?_⟩
  simp only [List.all_eq_true, List.mem_range, beq_iff_eq]
  intro j hj
  interval_cases j <;> simp [h0, h1, h2, h3]

/-- Whatever `check_winner` reports is confirmed by the `is_winning_move`
rescan at the first cell of the reported line. -/
theorem existsWin_of_check_winner {b : Board} {v : ℕ}
    (h : check_winner b = some v) : existsWin b v := by
  unfold check_winner at h
  cases hh : cw_horizontal b with
  | some w =>
    rw [hh] at h
    obtain rfl : w = v := by simpa using h
    obtain ⟨row, hrow, col, hcol, ⟨hne, h1, h2, h3⟩, hg⟩ :=
      pass_some_inv (by simpa [cw_horizontal] using hh)
    rw [List.mem_range] at hrow hcol
    subst hg
    exact ⟨hne, row, hrow, col, by omega,
      rfl, iwm_of_horiz hcol rfl h1 h2 h3⟩
  | none =>
    rw [hh] at h
    cases hv : cw_vertical b with
    | some w =>
      rw [hv] at h
      obtain rfl : w = v := by simpa using h
      obtain ⟨row, hrow, col, hcol, ⟨hne, h1, h2, h3⟩, hg⟩ :=
        pass_some_inv (by simpa [cw_vertical] using hv)
      rw [List.mem_range] at hrow hcol
      subst hg
      exact ⟨hne, row, by omega, col, hcol,
        rfl, iwm_of_vert (by omega) rfl h1 h2 h3⟩
    | none =>
      rw [hv] at h
      cases hp : cw_posdiag b with
      | some w =>
        rw [hp] at h
        obtain rfl : w = v := by simpa using h
        obtain ⟨row, hrow, col, hcol, ⟨hne, h1, h2, h3⟩, hg⟩ :=
          pass_some_inv (by simpa [cw_posdiag] using hp)
        rw [List.mem_range] at hrow hcol
        subst hg
        exact ⟨hne, row, by omega, col, by omega,
          rfl, iwm_of_posdiag (by omega) (by omega) rfl h1 h2 h3⟩
      | none =>
        rw [hp] at h
        obtain ⟨row, hrow, col, hcol, ⟨hne, h1, h2, h3⟩, hg⟩ :=
          pass_some_inv (by simpa [cw_negdiag] using h)
        rw [List.mem_range'_1] at hrow
        rw [List.mem_range] at hcol
        subst hg
        exact ⟨hne, row, by omega, col, by omega,
          rfl, iwm_of_negdiag (by omega) (by omega) (by omega) rfl h1 h2 h3⟩

/-- If the rescan fires anywhere (at an occupied cell), the full-board scan
cannot come up empty: every window `is_winning_move` accepts is one of the
windows `check_winner` scans. -/
theorem check_winner_ne_none_of_win {b : Board} {r c p : ℕ}
    (hr : r < 6) (hc : c < 7) (hp : p ≠ 0)
    (hw : is_winning_move b r c p = true) : check_winner b ≠ none := by
  intro hnone
  rw [check_winner_none_parts] at hnone
  obtain ⟨hH, hV, hP, hN⟩ := hnone
  unfold is_winning_move at hw
  simp only [Bool.or_eq_true] at hw
  rcases hw with ((hh | hv) | hpd) | hnd
  · rw [List.any_eq_true] at hh
    obtain ⟨c0, hc0mem, hall⟩ := hh
    rw [List.mem_range'_1] at hc0mem
    obtain ⟨e0, e1, e2, e3⟩ := window_cells hall
    rw [Nat.add_zero] at e0
    exact pass_none_inv (show _ = none from hH) r
      (List.mem_range.mpr hr) c0 (List.mem_range.mpr (by omega))
      ⟨by rw [e0]; exact hp, by rw [e1, e0], by rw [e2, e0], by rw [e3, e0]⟩
  · simp only [Bool.and_eq_true, decide_eq_true_eq] at hv
    obtain ⟨hr2, hall⟩ := hv
    obtain ⟨e0, e1, e2, e3⟩ := window_cells hall
    rw [Nat.add_zero] at e0
    exact pass_none_inv (show _ = none from hV) r
      (List.mem_range.mpr (by omega)) c (List.mem_range.mpr hc)
      ⟨by rw [e0]; exact hp, by rw [e1, e0], by rw [e2, e0], by rw [e3, e0]⟩
  · rw [List.any_eq_true] at hpd
    obtain ⟨t, htmem, hcond⟩ := hpd
    simp only [Bool.and_eq_true, decide_eq_true_eq] at hcond
    obtain ⟨⟨hrt, hct⟩, hall⟩ := hcond
    obtain ⟨e0, e1, e2, e3⟩ := window_cells hall
    rw [Nat.add_zero, Nat.add_zero] at e0
    exact pass_none_inv (show _ = none from hP) (r+t)
      (List.mem_range.mpr (by omega)) (c+t) (List.mem_range.mpr (by omega))
      ⟨by rw [e0]; exact hp, by rw [e1, e0], by rw [e2, e0], by rw [e3, e0]⟩
  · rw [List.any_eq_true] at hnd
    obtain ⟨t, htmem, hcond⟩ := hnd
    simp only [Bool.and_eq_true, decide_eq_true_eq] at hcond
    obtain ⟨⟨⟨hrt3, hrt6⟩, hct⟩, hall⟩ := hcond
    obtain ⟨e0, e1, e2, e3⟩ := window_cells hall
    rw [Nat.sub_zero, Nat.add_zero] at e0
    exact pass_none_inv (show _ = none from hN) (r-t)
      (by rw [List.mem_range'_1]; omega) (c+t)
      (List.mem_range.mpr (by omega))
      ⟨by rw [e0]; exact hp, by rw [e1, e0], by rw [e2, e0], by rw [e3, e0]⟩

/-- Any `existsWin` makes `check_winner` report somebody. -/
theorem check_winner_ne_none_of_existsWin {b : Board} {q : ℕ}
    (h : existsWin b q) : check_winner b ≠ none := by
  obtain ⟨hq, r, hr, c, hc, hcell, hwin⟩ := h
  exact check_winner_ne_none_of_win hr hc hq hwin

/-- Under a unique winner, any `existsWin` names that winner. -/
theorem existsWin_unique {b : Board} {p q : ℕ} (huniq : uniqueWinner b p)
    (h : existsWin b q) : q = p := by
  obtain ⟨hq, r, hr, c, hc, hcell, hwin⟩ := h
  have := huniq r hr c hc (by rw [hcell]; exact hq) (by rw [hcell]; exact hwin)
  rw [hcell] at this
  exact this

/-- Claim C5 (amended): for any grid whose `is_winning_move` rescan singles
out at most the one player `p` (`uniqueWinner` — in particular any position
in which only one side has a completed line), `check_winner` and the full
rescan agree: it returns `none` exactly when no occupied cell passes the
rescan for any piece value, and it returns `p` exactly when some occupied
cell holding `p` passes the rescan.  (Without the uniqueness premise the
claim fails: both players can own completed lines on a reachable grid, and
the scan returns only the scan-order-first one — see the counterexample.) -/
theorem C5_check_winner_rescan (b : Board) (p : ℕ)
    (huniq : uniqueWinner b p) :
    (check_winner b = none ↔ ∀ q, ¬ existsWin b q) ∧
    (check_winner b = some p ↔ existsWin b p) := by
  constructor
  · constructor
    · intro hnone q hq
      exact check_winner_ne_none_of_existsWin hq hnone
    · intro hno
      cases hcw : check_winner b with
      | none => rfl
      | some v => exact absurd (existsWin_of_check_winner hcw) (hno v)
  · constructor
    · intro h
      exact existsWin_of_check_winner h
    · intro hex
      cases hcw : check_winner b with
      | none => exact absurd hcw (check_winner_ne_none_of_existsWin hex)
      | some v =>
        have hv := existsWin_of_check_winner hcw
        rw [existsWin_unique huniq hv]

/-- Claim C5, witness for the amended theorem: on the singly-won grid
`s10a.board` (four 1s on the bottom row) the premise holds for `p = 1` and
the scan and rescan agree on the winner. -/
theorem C5_check_winner_rescan_witness :
    uniqueWinner s10a.board 1 ∧
    (check_winner s10a.board = some 1 ↔ existsWin s10a.board 1) :=
  ⟨by decide, (C5_check_winner_rescan s10a.board 1 (by decide)).2⟩

/-- Claim C5, counterexample.  `sC5` is reached by eight accepted moves
(player 1 completes row 5 across columns 0-3; the engine does not stop
play, and player 2 then completes row 4 above it).  The grid respects the
gravity invariant, and the rescan fires for player 1 at the occupied cell
`(5, 0)`; yet `check_winner` returns player 2 — its row-major horizontal
pass meets row 4 first — so `check_winner() = p iff some occupied cell
holding p passes the rescan` fails at `p = 1`. -/
theorem C5_counterexample :
    runOps initState movesC5 = sC5 ∧
    noFloating sC5.board ∧
    existsWin sC5.board 1 ∧
    check_winner sC5.board = some 2 ∧
    check_winner sC5.board ≠ some 1 := by
  refine ⟨rfl, by decide, by decide, by decide, by decide⟩
